import Mathlib

/-!
# Verification of `MakeLazy` (lazy loop-fused elementwise container operators)

Shallow embedding of `src/MakeLazy.h`:

* `OpTag` / `RelTag` embed the `CREATE_BINARY_OPERATION` macro families
  (`Lazy::detail::BinaryOperations`): the four `apply` overloads of each
  operation tag.  For the element types in play (built-ins, `std::string`,
  the test's `Element`), the compound assignment `x ω= y` stores `x ω y`
  into `x`; the overload bodies are embedded accordingly.
* `Expr` embeds `Lazy::detail::BinaryExpression` trees: a leaf is a wrapped
  collection (identified by the id of the collection it references, the
  collections themselves living in an environment `Env`), an inner node
  carries an operation tag.  `Expr.eval` embeds
  `BinaryExpression::operator[]`: both operand reads are prvalues (both
  `Container::operator[]` and `BinaryExpression::operator[]` return by
  value), so overload resolution selects the `(T&&, T&&)` overload of
  `apply`, embedded as `OpTag.applyRR`.
* `Container.assignExpr`, `Container.plusAssignExpr`, `Container.ofExpr`
  embed the materialization loops of `Lazy::Container` (`operator=`,
  `operator+=`, construction from an expression).  The destination is a
  collection distinct from the expression's leaves, as in the claims.
* `Expr.evalT` / `Container.plusAssignExprT` are the same evaluation and
  loop instrumented with the trace of element reads `(leaf id, index)`
  performed, mirroring that `BinaryExpression::operator[]` reads each
  operand exactly once per call.
-/

namespace MakeLazy

/-- Embeds the arithmetic/bitwise `CREATE_BINARY_OPERATION(xi_name, xi_operator,
xi_assign_operator)` macro's template parameterization: one plain operator
`op` per tag; on the element types used, `x xi_assign_operator y` stores
`op x y` into `x`. -/
structure OpTag (α : Type) where
  op : α → α → α

namespace OpTag

/-- `apply(const T& a, const T& b) { return a ω b; }` -/
def applyCC (t : OpTag α) (a b : α) : α := t.op a b

/-- `apply(T&& a, const T& b) { a ω= b; return std::move(a); }` -/
def applyRC (t : OpTag α) (a b : α) : α := t.op a b

/-- `apply(const T& a, T&& b) { b ω= a; return std::move(b); }` — note the
body assigns into `b`, producing `b ω a`. -/
def applyCR (t : OpTag α) (a b : α) : α := t.op b a

/-- `apply(T&& a, T&& b) { a ω= b; return std::move(a); }` -/
def applyRR (t : OpTag α) (a b : α) : α := t.op a b

end OpTag

/-- Embeds the relational/logical `CREATE_BINARY_OPERATION(xi_name,
xi_operator)` macro's template parameterization: one boolean relation per
tag. -/
structure RelTag (α : Type) where
  rel : α → α → Bool

namespace RelTag

/-- `apply(const T& a, const T& b) { return a ω b; }`: the result plus the
final values of the two operands (no assignment occurs in the body). -/
def applyCC (t : RelTag α) (a b : α) : Bool × α × α := (t.rel a b, a, b)

/-- `apply(T&& a, const T& b) { return a ω b; }` -/
def applyRC (t : RelTag α) (a b : α) : Bool × α × α := (t.rel a b, a, b)

/-- `apply(const T& a, T&& b) { return a ω b; }` -/
def applyCR (t : RelTag α) (a b : α) : Bool × α × α := (t.rel a b, a, b)

/-- `apply(T&& a, T&& b) { return a ω b; }` -/
def applyRR (t : RelTag α) (a b : α) : Bool × α × α := (t.rel a b, a, b)

end RelTag

/-- C++ `int` bitwise `|` (two's complement), for instantiating the generic
tags at the element type `int`. -/
instance : OrOp Int := ⟨Int.lor⟩

/-- C++ `int` bitwise `&` (two's complement). -/
instance : AndOp Int := ⟨Int.land⟩

/-- C++ `int` bitwise `^` (two's complement). -/
instance : Xor Int := ⟨Int.xor⟩

namespace BinaryOperations

/-- `CREATE_BINARY_OPERATION(ADD, +, +=)` -/
def ADD (α : Type) [Add α] : OpTag α := ⟨fun a b => a + b⟩

/-- `CREATE_BINARY_OPERATION(SUB, -, -=)` -/
def SUB (α : Type) [Sub α] : OpTag α := ⟨fun a b => a - b⟩

/-- `CREATE_BINARY_OPERATION(MUL, *, *=)` -/
def MUL (α : Type) [Mul α] : OpTag α := ⟨fun a b => a * b⟩

/-- `CREATE_BINARY_OPERATION(DIV, /, /=)` -/
def DIV (α : Type) [Div α] : OpTag α := ⟨fun a b => a / b⟩

/-- `CREATE_BINARY_OPERATION(LOR, |, |=)` -/
def LOR (α : Type) [OrOp α] : OpTag α := ⟨fun a b => a ||| b⟩

/-- `CREATE_BINARY_OPERATION(LAND, &, &=)` -/
def LAND (α : Type) [AndOp α] : OpTag α := ⟨fun a b => a &&& b⟩

/-- `CREATE_BINARY_OPERATION(LXOR, ^, ^=)` -/
def LXOR (α : Type) [Xor α] : OpTag α := ⟨fun a b => a ^^^ b⟩

/-- `CREATE_BINARY_OPERATION(SHL, <<, <<=)` -/
def SHL (α : Type) [ShiftLeft α] : OpTag α := ⟨fun a b => a <<< b⟩

/-- `CREATE_BINARY_OPERATION(SHR, >>, >>=)` -/
def SHR (α : Type) [ShiftRight α] : OpTag α := ⟨fun a b => a >>> b⟩

/-- `CREATE_BINARY_OPERATION(AND, &&)` at element type `int`: C++ contextual
bool conversion makes `a && b` into `(a != 0) && (b != 0)`. -/
def AND : RelTag Int := ⟨fun a b => (a != 0) && (b != 0)⟩

/-- `CREATE_BINARY_OPERATION(OR, ||)` at element type `int`. -/
def OR : RelTag Int := ⟨fun a b => (a != 0) || (b != 0)⟩

/-- `CREATE_BINARY_OPERATION(EQ, ==)` at element type `int`. -/
def EQ : RelTag Int := ⟨fun a b => a == b⟩

/-- `CREATE_BINARY_OPERATION(NEQ, !=)` at element type `int`. -/
def NEQ : RelTag Int := ⟨fun a b => a != b⟩

/-- `CREATE_BINARY_OPERATION(LT, <)` at element type `int`. -/
def LT : RelTag Int := ⟨fun a b => decide (a < b)⟩

/-- `CREATE_BINARY_OPERATION(LE, <=)` at element type `int`. -/
def LE : RelTag Int := ⟨fun a b => decide (a ≤ b)⟩

/-- `CREATE_BINARY_OPERATION(GT, >)` at element type `int`. -/
def GT : RelTag Int := ⟨fun a b => decide (b < a)⟩

/-- `CREATE_BINARY_OPERATION(GE, >=)` at element type `int`. -/
def GE : RelTag Int := ⟨fun a b => decide (b ≤ a)⟩

end BinaryOperations

/-- The collections wrapped by the `Lazy::Container` wrappers in scope: the
wrapper holds its collection by reference, embedded as an id into this
environment. -/
abbrev Env (α : Type) := Nat → List α

/-- Embeds a `BinaryExpression` tree.  A leaf is a `Lazy::Container`
wrapper, identified by the id of the collection it references; a node pairs
the two operands with the operation tag. -/
inductive Expr (α : Type) where
  | leaf (id : Nat)
  | node (t : OpTag α) (l : Expr α) (r : Expr α)

/-- Embeds indexed evaluation.  Leaf: `Container::operator[]` returns
`m_container[i]` by value (`auto` return type), embedded as `getD` (an
out-of-range access is undefined behavior in the C++; the claims stay in
range).  Node: `BinaryExpression::operator[]` returns
`BinaryOp::apply(le()[index], re()[index])`; both argument expressions are
prvalues, so the `(T&&, T&&)` overload — `applyRR` — is selected. -/
def Expr.eval [Inhabited α] (env : Env α) : Expr α → Nat → α
  | .leaf id, i => (env id).getD i default
  | .node t l r, i => t.applyRR (l.eval env i) (r.eval env i)

/-- The leaf collections of an expression tree, in evaluation order. -/
def Expr.leaves : Expr α → List Nat
  | .leaf id => [id]
  | .node _ l r => l.leaves ++ r.leaves

/-- `Expr.eval` instrumented with the trace of element reads: each leaf
visit is one read of `(collection id, index)`, exactly as
`BinaryExpression::operator[]` reads each operand subexpression once. -/
def Expr.evalT [Inhabited α] (env : Env α) : Expr α → Nat → α × List (Nat × Nat)
  | .leaf id, i => ((env id).getD i default, [(id, i)])
  | .node t l r, i =>
      (t.applyRR (l.evalT env i).1 (r.evalT env i).1, (l.evalT env i).2 ++ (r.evalT env i).2)

namespace Container

/-- `Container::operator+` (lines 258-260): builds a `BinaryExpression`
pairing `*this` (left) with the right-hand operand under the `ADD` tag. -/
def opPlus [Add α] (wId : Nat) (rhs : Expr α) : Expr α :=
  .node (BinaryOperations.ADD α) (.leaf wId) rhs

/-- `Container::operator&` (lines 334-336): builds a `BinaryExpression`
with the `LAND` tag. -/
def opAmpLAND (wId : Nat) (rhs : Expr Int) : Expr Int :=
  .node (BinaryOperations.LAND Int) (.leaf wId) rhs

/-- The second `Container::operator&` (lines 353-355, sitting in the
`'|'/'|='` block): builds a `BinaryExpression` with the `LOR` tag.  The
source declares this builder under the token `&`, not `|`. -/
def opAmpLOR (wId : Nat) (rhs : Expr Int) : Expr Int :=
  .node (BinaryOperations.LOR Int) (.leaf wId) rhs

/-- The C++ operator token under which each expression-building binary
operator of `Lazy::Container` is declared, with its Operation Tag, in
source order (lines 258-442).  Note the token `&` appears twice (`LAND` at
line 334, `LOR` at line 353) and the token `|` never appears. -/
def exprOperatorDecls : List (String × String) :=
  [("+", "ADD"), ("-", "SUB"), ("*", "MUL"), ("/", "DIV"),
   ("&", "LAND"), ("&", "LOR"), ("^", "LXOR"), ("<<", "SHL"), (">>", "SHR"),
   ("==", "EQ"), ("!=", "NEQ"), ("<", "LT"), ("<=", "LE"), (">", "GT"), (">=", "GE")]

/-- `Container::operator=` from a binary expression (lines 217-223):
`for (i = 0; i < m_container.size(); ++i) m_container[i] = move(expr[i])`.
`dest` is the wrapper's bound collection. -/
def assignExpr [Inhabited α] (env : Env α) (dest : List α) (e : Expr α) : List α :=
  (List.range dest.length).foldl (fun acc i => acc.set i (e.eval env i)) dest

/-- `Container::operator+=` from a binary expression (lines 251-257):
`for (i = 0; i < m_container.size(); ++i) m_container[i] += move(expr[i])`;
on the element types in play `x += v` stores `x + v`. -/
def plusAssignExpr [Add α] [Inhabited α] (env : Env α) (dest : List α) (e : Expr α) :
    List α :=
  (List.range dest.length).foldl
    (fun acc i => acc.set i (acc.getD i default + e.eval env i)) dest

/-- The loop body of the `Container(T&& xi_expression)` constructor (lines
209-214): `for (i = 0; i < m_container.size(); ++i) m_container[i] =
move(expr[i])`.  In the source this constructor has no mem-initializer, so
the reference member `m_container` is never bound; `dest` here supplies the
bound collection the loop would need. -/
def ofExpr [Inhabited α] (env : Env α) (dest : List α) (e : Expr α) : List α :=
  (List.range dest.length).foldl (fun acc i => acc.set i (e.eval env i)) dest

/-- `Container::operator+=` (expression overload) instrumented with the
trace of expression element reads performed by the loop. -/
def plusAssignExprT [Add α] [Inhabited α] (env : Env α) (dest : List α) (e : Expr α) :
    List α × List (Nat × Nat) :=
  (List.range dest.length).foldl
    (fun acc i =>
      (acc.1.set i (acc.1.getD i default + (e.evalT env i).1), acc.2 ++ (e.evalT env i).2))
    (dest, [])

end Container

namespace BinaryExpression

/-- `BinaryExpression::operator+` from the
`CREATE_BINARY_EXPRESSION_OPERATOR(+)` macro expansion (lines 53-56, 67):
member of `BinaryExpression<LeftExpr, BinaryOp, RightExpr>` — here the
receiver node is given by its components `t`, `l`, `r` — returning
`BinaryExpression<const BinaryExpression&, BinaryOp, RE>(*this, re)`.  The
new node's tag is the receiver's own `BinaryOp`. -/
def opPlus (t : OpTag α) (l r : Expr α) (rhs : Expr α) : Expr α :=
  .node t (.node t l r) rhs

/-- `BinaryExpression::operator-` from the
`CREATE_BINARY_EXPRESSION_OPERATOR(-)` macro expansion (lines 53-56, 68):
identical body — the new node's tag is the receiver's own `BinaryOp`, not a
`SUB` tag. -/
def opMinus (t : OpTag α) (l r : Expr α) (rhs : Expr α) : Expr α :=
  .node t (.node t l r) rhs

end BinaryExpression

/-- Environment holding three wrapped collections `a`, `b`, `c` under ids
0, 1, 2. -/
def env3 (a b c : List α) : Env α :=
  fun id => if id = 0 then a else if id = 1 then b else if id = 2 then c else []

/-- Environment holding two wrapped collections `a`, `b` under ids 0, 1. -/
def env2 (a b : List α) : Env α :=
  fun id => if id = 0 then a else if id = 1 then b else []

/-- The tree built by `A + B + C` on wrappers of collections 0, 1, 2:
`Container::operator+` gives `Expr.node (ADD α) (.leaf 0) (.leaf 1)` for
`A + B`, and the `BinaryExpression` `operator+` macro composes it with
`C`. -/
def chainABC [Add α] : Expr α :=
  BinaryExpression.opPlus (BinaryOperations.ADD α) (Expr.leaf 0) (Expr.leaf 1) (Expr.leaf 2)

/-- The tree built by `A + B` on wrappers of collections 0, 1. -/
def chainAB [Add α] : Expr α := Container.opPlus 0 (Expr.leaf 1)

/-- Modelled from the spec's words ("identical to a naive elementwise
loop"): the naive loop `for i: D[i] = A[i] + B[i] + C[i]`. -/
def naiveTripleSum [Add α] [Inhabited α] (a b c d : List α) : List α :=
  (List.range d.length).foldl
    (fun acc i => acc.set i (a.getD i default + b.getD i default + c.getD i default)) d

/-- `std::string` addition is concatenation (`operator+`/`operator+=`),
used by the spec's text-element scenario. -/
instance : Add String := ⟨fun a b => a ++ b⟩

/-- What an indexing operator hands back: a reference into the collection
(written through on assignment) or a detached copy of the element.  The
source's `auto operator[](i) { return m_container[i]; }` deduces a
non-reference return type, so both `Container` overloads produce `val`. -/
inductive Handle (α : Type) where
  | ref (i : Nat)
  | val (a : α)

/-- `Container::operator[]`, non-const overload (line 236): `auto` return
type — the element `m_container[i]` is returned by value. -/
def Container.index [Inhabited α] (c : List α) (i : Nat) : Handle α :=
  .val (c.getD i default)

/-- `Container::operator[]`, const overload (line 237): also by value. -/
def Container.indexConst [Inhabited α] (c : List α) (i : Nat) : Handle α :=
  .val (c.getD i default)

/-- Reading the element the indexing operator handed back. -/
def Handle.read [Inhabited α] (c : List α) : Handle α → α
  | .ref i => c.getD i default
  | .val a => a

/-- Assigning `v` through what the indexing operator handed back: only a
reference writes the collection; a copy leaves it untouched. -/
def Handle.assign (c : List α) (v : α) : Handle α → List α
  | .ref i => c.set i v
  | .val _ => c

/-- `Container::operator+` in state-passing form: builds the tree node and
performs no element access — it returns the environment of wrapped
collections unchanged and an empty read/write trace (the `BinaryExpression`
constructor, line 40, only stores its operands). -/
def Container.opPlusS [Add α] (wId : Nat) (rhs : Expr α) (env : Env α) :
    Expr α × Env α × List (Nat × Nat) :=
  (.node (BinaryOperations.ADD α) (.leaf wId) rhs, env, [])

/-- The `BinaryExpression` `operator+` macro expansion in state-passing
form; the receiver node is given by its components `t`, `l`, `r`. -/
def BinaryExpression.opPlusS (t : OpTag α) (l r rhs : Expr α) (env : Env α) :
    Expr α × Env α × List (Nat × Nat) :=
  (.node t (.node t l r) rhs, env, [])

/-- Composing `A + B + C` (wrappers of collections `a`, `b`, `c`) without
materializing: `Container::operator+` builds the node `(ADD, leaf a, leaf
b)`, then the `BinaryExpression` `operator+` macro — invoked on that node,
here given by its components — composes it with `C`.  Environment and
read/write traces are threaded through both calls. -/
def composeChainS [Add α] (a b c : Nat) (env : Env α) :
    Expr α × Env α × List (Nat × Nat) :=
  match Container.opPlusS a (Expr.leaf b) env with
  | (_, envA, tA) =>
    match BinaryExpression.opPlusS (BinaryOperations.ADD α) (Expr.leaf a) (Expr.leaf b)
        (Expr.leaf c) envA with
    | (e, envB, tB) => (e, envB, tA ++ tB)

/-- A relational tag's four `apply` overloads all return the plain relation
and hand both operands back unchanged. -/
def preservesOperands (t : RelTag Int) : Prop :=
  ∀ a b : Int,
    t.applyCC a b = (t.rel a b, a, b) ∧ t.applyRC a b = (t.rel a b, a, b)
    ∧ t.applyCR a b = (t.rel a b, a, b) ∧ t.applyRR a b = (t.rel a b, a, b)

/-! ## Helper lemmas -/

theorem getD_set_eq (d : List α) (i : Nat) (v dflt : α) (h : i < d.length) :
    (d.set i v).getD i dflt = v := by
  simp [List.getD_eq_getElem?_getD, List.getElem?_set_self h]

theorem getD_set_ne (d : List α) (i j : Nat) (v dflt : α) (h : j ≠ i) :
    (d.set i v).getD j dflt = d.getD j dflt := by
  simp [List.getD_eq_getElem?_getD, List.getElem?_set_ne (Ne.symm h)]

theorem getD_eq_getElem (l : List α) (dflt : α) {i : Nat} (h : i < l.length) :
    l.getD i dflt = l[i] := by
  simp [List.getD_eq_getElem?_getD, List.getElem?_eq_getElem h]

/-- The write-one-index-at-a-time loop, fully characterized: folding
`acc.set i (f (acc.getD i dflt) i)` over a duplicate-free index list. -/
theorem foldl_set_getD (f : α → Nat → α) (dflt : α) :
    ∀ (l : List Nat), l.Nodup → ∀ (d : List α) (j : Nat),
      (l.foldl (fun acc i => acc.set i (f (acc.getD i dflt) i)) d).getD j dflt
        = if j ∈ l ∧ j < d.length then f (d.getD j dflt) j else d.getD j dflt := by
  intro l
  induction l with
  | nil => intro _ d j; simp
  | cons i l ih =>
    intro hnd d j
    have hil : i ∉ l := (List.nodup_cons.mp hnd).1
    have hnd2 : l.Nodup := (List.nodup_cons.mp hnd).2
    rw [List.foldl_cons, ih hnd2]
    by_cases hji : j = i
    · subst hji
      have hjl : j ∉ l := hil
      by_cases hlen : j < d.length
      · simp [List.length_set, hjl, hlen, getD_set_eq d j _ dflt hlen, List.mem_cons]
      · rw [List.set_eq_of_length_le (Nat.le_of_not_lt hlen)]
        simp [hjl, hlen]
    · rw [getD_set_ne d i j _ dflt hji]
      simp only [List.length_set, List.mem_cons]
      by_cases hjl : j ∈ l
      · by_cases hlen : j < d.length
        · rw [if_pos ⟨hjl, hlen⟩, if_pos ⟨Or.inr hjl, hlen⟩]
        · rw [if_neg (fun hc => hlen hc.2), if_neg (fun hc => hlen hc.2)]
      · rw [if_neg (fun hc => hjl hc.1),
            if_neg (fun hc => hc.1.elim (fun he => hji he) (fun hm => hjl hm))]

theorem foldl_set_length (f : α → Nat → α) (dflt : α) :
    ∀ (l : List Nat) (d : List α),
      (l.foldl (fun acc i => acc.set i (f (acc.getD i dflt) i)) d).length = d.length := by
  intro l
  induction l with
  | nil => intro d; rfl
  | cons i l ih => intro d; rw [List.foldl_cons, ih, List.length_set]

theorem assignExpr_getD [Inhabited α] (env : Env α) (dest : List α) (e : Expr α) (j : Nat) :
    (Container.assignExpr env dest e).getD j default
      = if j < dest.length then e.eval env j else dest.getD j default := by
  have h := foldl_set_getD (fun _ i => e.eval env i) (default : α) (List.range dest.length)
      (List.nodup_range dest.length) dest j
  simp only [List.mem_range, and_self] at h
  simpa [Container.assignExpr] using h

theorem assignExpr_length [Inhabited α] (env : Env α) (dest : List α) (e : Expr α) :
    (Container.assignExpr env dest e).length = dest.length := by
  have h := foldl_set_length (fun _ i => e.eval env i) (default : α) (List.range dest.length)
      dest
  simpa [Container.assignExpr] using h

theorem plusAssignExpr_getD [Add α] [Inhabited α] (env : Env α) (dest : List α) (e : Expr α)
    (j : Nat) :
    (Container.plusAssignExpr env dest e).getD j default
      = if j < dest.length then dest.getD j default + e.eval env j
        else dest.getD j default := by
  have h := foldl_set_getD (fun v i => v + e.eval env i) (default : α)
      (List.range dest.length) (List.nodup_range dest.length) dest j
  simp only [List.mem_range, and_self] at h
  simpa [Container.plusAssignExpr] using h

theorem naiveTripleSum_getD [Add α] [Inhabited α] (a b c d : List α) (j : Nat) :
    (naiveTripleSum a b c d).getD j default
      = if j < d.length then a.getD j default + b.getD j default + c.getD j default
        else d.getD j default := by
  have h := foldl_set_getD
      (fun _ i => a.getD i default + b.getD i default + c.getD i default) (default : α)
      (List.range d.length) (List.nodup_range d.length) d j
  simp only [List.mem_range, and_self] at h
  simpa [naiveTripleSum] using h

theorem naiveTripleSum_length [Add α] [Inhabited α] (a b c d : List α) :
    (naiveTripleSum a b c d).length = d.length := by
  have h := foldl_set_length
      (fun _ i => a.getD i default + b.getD i default + c.getD i default) (default : α)
      (List.range d.length) d
  simpa [naiveTripleSum] using h

theorem chainABC_eval [Add α] [Inhabited α] (a b c : List α) (i : Nat) :
    (chainABC (α := α)).eval (env3 a b c) i
      = a.getD i default + b.getD i default + c.getD i default := by
  simp [chainABC, BinaryExpression.opPlus, Expr.eval, OpTag.applyRR, BinaryOperations.ADD,
    env3]

theorem chainAB_eval [Add α] [Inhabited α] (a b : List α) (i : Nat) :
    (chainAB (α := α)).eval (env2 a b) i = a.getD i default + b.getD i default := by
  simp [chainAB, Container.opPlus, Expr.eval, OpTag.applyRR, BinaryOperations.ADD, env2]

/-! ## Claim theorems -/

/-- **C1**: Fusion correctness of wrapper assignment: for same-length
collections, materializing `D = A + B + C` through `Container::operator=`
(one fused pass) yields `D[i] = A[i] + B[i] + C[i]` at every index
`i < D.size()`, and the materialized collection is identical to the result
of the naive elementwise loop. -/
theorem fusion_correct {α} [Add α] [Inhabited α] (a b c d : List α)
    (ha : a.length = d.length) (hb : b.length = d.length) (hc : c.length = d.length) :
    (∀ i, i < d.length →
      (Container.assignExpr (env3 a b c) d chainABC).getD i default
        = a.getD i default + b.getD i default + c.getD i default)
    ∧ Container.assignExpr (env3 a b c) d chainABC = naiveTripleSum a b c d := by
  constructor
  · intro i hi
    rw [assignExpr_getD, if_pos hi, chainABC_eval]
  · apply List.ext_getElem
    · rw [assignExpr_length, naiveTripleSum_length]
    · intro i h1 h2
      have hi : i < d.length := by rwa [assignExpr_length] at h1
      rw [← getD_eq_getElem _ default h1, ← getD_eq_getElem _ default h2,
        assignExpr_getD, naiveTripleSum_getD, if_pos hi, if_pos hi, chainABC_eval]

/-- Witness for C1 at a concrete input. -/
theorem fusion_correct_witness :
    Container.assignExpr (env3 [(1 : Int), 2] [3, 4] [5, 6]) [0, 0] chainABC
      = naiveTripleSum [(1 : Int), 2] [3, 4] [5, 6] [0, 0] :=
  (fusion_correct [(1 : Int), 2] [3, 4] [5, 6] [0, 0] rfl rfl rfl).2

/-- **C2**: Compound-assignment correctness: `D += A + B` through
`Container::operator+=` yields `D[i] = D_old[i] + A[i] + B[i]` at every
index `i < D.size()`; and in the spec's integer scenario,
`D += A + B + C` with `A = [1,2,3]`, `B = [10,20,30]`, `C = [100,200,300]`,
`D = [0,0,0]` leaves `D = [111, 222, 333]`. -/
theorem compound_assign_correct {α} [AddSemigroup α] [Inhabited α] (a b d : List α)
    (ha : a.length = d.length) (hb : b.length = d.length) :
    (∀ i, i < d.length →
      (Container.plusAssignExpr (env2 a b) d chainAB).getD i default
        = d.getD i default + a.getD i default + b.getD i default)
    ∧ Container.plusAssignExpr (env3 [(1 : Int), 2, 3] [10, 20, 30] [100, 200, 300])
        [0, 0, 0] chainABC = [111, 222, 333] := by
  constructor
  · intro i hi
    rw [plusAssignExpr_getD, if_pos hi, chainAB_eval, add_assoc]
  · decide

/-- Witness for C2 at a concrete input (the spec's scenario). -/
theorem compound_assign_correct_witness :
    Container.plusAssignExpr (env3 [(1 : Int), 2, 3] [10, 20, 30] [100, 200, 300])
      [0, 0, 0] chainABC = [111, 222, 333] :=
  (compound_assign_correct [(1 : Int), 2, 3] [10, 20, 30] [0, 0, 0] rfl rfl).2

/-- **C3** (refuting the claim as stated): the
`CREATE_BINARY_EXPRESSION_OPERATOR` macro tags the composed node with the
receiver's own `BinaryOp`, not with the tag of the operator invoked.
Composing the `ADD`-tagged node `A + B` with `C` via `operator-`, for
`A = [5]`, `B = [0]`, `C = [3]`, evaluates at index 0 to `5 + 0 + 3 = 8`,
while the claim's `E[0] - C[0]` is `5 + 0 - 3 = 2`. -/
theorem compose_reuses_left_tag :
    (BinaryExpression.opMinus (BinaryOperations.ADD Int) (Expr.leaf 0) (Expr.leaf 1)
        (Expr.leaf 2)).eval (env3 [5] [0] [3]) 0 = 8
    ∧ (5 : Int) + 0 - 3 = 2 := by decide

/-- **C4** (refuting the claim as stated): the `(const T&, T&&)` overload of
an arithmetic tag executes `b ω= a; return std::move(b)`, yielding `b ω a`.
For `SUB` at `a = 5`, `b = 3` it returns `3 - 5 = -2`, while the plain
operation `a - b` is `2`. -/
theorem sub_applyCR_swaps_operands :
    (BinaryOperations.SUB Int).applyCR 5 3 = -2 ∧ (5 : Int) - 3 = 2 := by decide

/-- **C5**: the loop body of the expression constructor, once a destination
of size 2 is actually bound, materializes `A + B` for `A = ["x","x"]`,
`B = ["y","y"]` into `["xy","xy"]` — in the source the constructor never
binds its reference member `m_container`, so this loop has no destination
to run over. -/
theorem construction_loop_materializes :
    Container.ofExpr (env2 ["x", "x"] ["y", "y"]) ["", ""] chainAB = ["xy", "xy"] := by
  decide

/-- **C6** (refuting the claim as stated): `Lazy::Container` declares no
binary `operator|` at all — the `'|'/'|='` block declares its plain node
builder under the token `&` (a second `operator&`, clashing with the `LAND`
one) — though that builder's node does evaluate elementwise to the bitwise
or of the two operands. -/
theorem no_pipe_operator_on_container :
    (Container.exprOperatorDecls.map Prod.fst).count "|" = 0
    ∧ (Container.exprOperatorDecls.map Prod.fst).count "&" = 2
    ∧ ∀ (a r : List Int) (i : Nat),
        (Container.opAmpLOR 0 (Expr.leaf 1)).eval (env2 a r) i
          = Int.lor (a.getD i 0) (r.getD i 0) := by
  refine ⟨by decide, by decide, fun a r i => ?_⟩
  simp [Container.opAmpLOR, Expr.eval, OpTag.applyRR, BinaryOperations.LOR, env2]
  rfl

theorem evalT_trace [Inhabited α] (env : Env α) (e : Expr α) (i : Nat) :
    (e.evalT env i).2 = e.leaves.map (fun x => (x, i)) := by
  induction e with
  | leaf id => rfl
  | node t l r ihl ihr => simp [Expr.evalT, Expr.leaves, ihl, ihr]

theorem plusAssignT_snd_aux [Add α] [Inhabited α] (env : Env α) (e : Expr α) :
    ∀ (l : List Nat) (d : List α) (t : List (Nat × Nat)),
      (l.foldl (fun acc i =>
          (acc.1.set i (acc.1.getD i default + (e.evalT env i).1),
           acc.2 ++ (e.evalT env i).2)) (d, t)).2
        = t ++ l.flatMap (fun i => (e.evalT env i).2) := by
  intro l
  induction l with
  | nil => intro d t; simp
  | cons i l ih =>
    intro d t
    rw [List.foldl_cons, ih]
    simp [List.flatMap_cons]

theorem count_eq_one_of_nodup_mem {γ : Type} [BEq γ] [LawfulBEq γ] {l : List γ} {a : γ}
    (hnd : l.Nodup) (ha : a ∈ l) : l.count a = 1 := by
  induction l with
  | nil => cases ha
  | cons b l ih =>
    rw [List.count_cons]
    rcases List.mem_cons.mp ha with h1 | h2
    · subst h1
      rw [List.count_eq_zero.mpr (List.nodup_cons.mp hnd).1, if_pos (beq_self_eq_true a)]
    · have hb : b ≠ a := fun hba => (List.nodup_cons.mp hnd).1 (hba ▸ h2)
      rw [ih (List.nodup_cons.mp hnd).2 h2, if_neg (by simpa using hb)]

theorem count_map_pair (L : List Nat) (j x : Nat) :
    (L.map fun y => (y, j)).count (x, j) = L.count x := by
  induction L with
  | nil => rfl
  | cons y L ih =>
    rw [List.map_cons, List.count_cons, List.count_cons, ih]
    by_cases hxy : y = x
    · subst hxy
      rw [if_pos (beq_self_eq_true (y, j)), if_pos (beq_self_eq_true y)]
    · rw [if_neg (by simpa using hxy), if_neg (by simp [hxy])]

theorem count_map_pair_ne (L : List Nat) (j x i : Nat) (h : j ≠ i) :
    (L.map fun y => (y, j)).count (x, i) = 0 := by
  rw [List.count_eq_zero]
  intro hmem
  obtain ⟨y, _, hy⟩ := List.mem_map.mp hmem
  exact h ((Prod.ext_iff.mp hy).2)

theorem count_flatMap_pairs (L : List Nat) (l : List Nat) (x i : Nat) :
    (l.flatMap fun j => L.map fun y => (y, j)).count (x, i) = l.count i * L.count x := by
  induction l with
  | nil => simp
  | cons j l ih =>
    rw [List.flatMap_cons, List.count_append, ih, List.count_cons]
    by_cases hji : j = i
    · subst hji
      rw [count_map_pair, if_pos (beq_self_eq_true j)]
      ring
    · rw [count_map_pair_ne L j x i hji, if_neg (by simpa using hji)]
      ring

theorem plusAssignExprT_count [Add α] [Inhabited α] (env : Env α) (dest : List α)
    (e : Expr α) (x i : Nat) :
    ((Container.plusAssignExprT env dest e).2).count (x, i)
      = (List.range dest.length).count i * e.leaves.count x := by
  have h := plusAssignT_snd_aux env e (List.range dest.length) dest []
  rw [Container.plusAssignExprT, h, List.nil_append]
  simp only [evalT_trace]
  exact count_flatMap_pairs e.leaves (List.range dest.length) x i

/-- **C7**: single-pass guarantee: materializing through
`Container::operator+=` over an expression tree whose leaves are pairwise
distinct collections reads each leaf collection's element at each index
`i < D.size()` exactly once. -/
theorem single_pass_reads {α} [Add α] [Inhabited α] (env : Env α) (dest : List α)
    (e : Expr α) (hnd : e.leaves.Nodup) (x : Nat) (hx : x ∈ e.leaves) (i : Nat)
    (hi : i < dest.length) :
    ((Container.plusAssignExprT env dest e).2).count (x, i) = 1 := by
  rw [plusAssignExprT_count,
    count_eq_one_of_nodup_mem (List.nodup_range dest.length) (List.mem_range.mpr hi),
    count_eq_one_of_nodup_mem hnd hx]

/-- Witness for C7: `D += A + B` over singletons, leaf `A` (id 0) is read
exactly once at index 0. -/
theorem single_pass_reads_witness :
    ((Container.plusAssignExprT (env2 [(1 : Int)] [2]) [0] chainAB).2).count (0, 0) = 1 :=
  single_pass_reads (env2 [(1 : Int)] [2]) [0] chainAB (by decide) 0 (by decide) 0
    (by decide)

/-- **C8**: the relational and logical Operation Tags (`==`, `!=`, `<`,
`<=`, `>`, `>=`, `&&`, `||`) return a boolean result and never mutate their
operands: every one of the four `apply` overloads, including those
receiving rvalue operands, returns the plain relation and leaves both
operand values unchanged. -/
theorem relational_tags_pure :
    preservesOperands BinaryOperations.AND ∧ preservesOperands BinaryOperations.OR
    ∧ preservesOperands BinaryOperations.EQ ∧ preservesOperands BinaryOperations.NEQ
    ∧ preservesOperands BinaryOperations.LT ∧ preservesOperands BinaryOperations.LE
    ∧ preservesOperands BinaryOperations.GT ∧ preservesOperands BinaryOperations.GE := by
  refine ⟨?_, ?_, ?_, ?_, ?_, ?_, ?_, ?_⟩ <;> exact fun a b => ⟨rfl, rfl, rfl, rfl⟩

/-- **C9**: composition has no side effects: building the expression tree
for `A + B + C` (one `Container::operator+` call, then one
`BinaryExpression` composition call) performs no element reads or writes
and leaves every wrapped collection exactly as it was. -/
theorem composition_no_side_effects {α} [Add α] (a b c : Nat) (env : Env α) :
    (composeChainS a b c env).2.1 = env ∧ (composeChainS a b c env).2.2 = []
    ∧ ∀ id, (composeChainS a b c env).2.1 id = env id :=
  ⟨rfl, rfl, fun _ => rfl⟩

/-- **C10**: both overloads of the wrapper's indexing operator return the
element by value: reading `w[i]` gives `c[i]`, and assigning through the
returned result writes nothing back into the wrapped collection. -/
theorem index_returns_copy {α} [Inhabited α] (w : List α) (i : Nat) (v : α)
    (h : i < w.length) :
    Handle.read w (Container.index w i) = w[i]
    ∧ Handle.assign w v (Container.index w i) = w
    ∧ Handle.read w (Container.indexConst w i) = w[i]
    ∧ Handle.assign w v (Container.indexConst w i) = w := by
  have hr : w.getD i default = w[i] := getD_eq_getElem w default h
  exact ⟨hr, rfl, hr, rfl⟩

/-- Witness for C10 at a concrete input: writing through the result of
`w[1]` leaves the collection unchanged. -/
theorem index_returns_copy_witness :
    Handle.assign [(10 : Int), 20] 99 (Container.index [(10 : Int), 20] 1)
      = [(10 : Int), 20] :=
  (index_returns_copy [(10 : Int), 20] 1 99 (by decide)).2.1

end MakeLazy
